import Mathlib

/-!
# Verification of the local (non-LLM) fallback NLP pipeline

Shallow embedding of the local rule-based path of `backend/app/nlp.py`:
`extract_key_points` and `generate_quiz`, together with proofs of the
specified properties.

Modelling conventions:
* Python strings are modelled as `List Char` (`Str`); all inputs of
  interest are ASCII, for which `Char.toLower` agrees with `str.lower`.
* The random source (`random.choice`, `random.shuffle`) is modelled as an
  oracle stream `g : ℕ → ℕ` together with a running counter `k`; a call
  `random.choice l` reads index `g k % l.length` and advances the counter.
  `random.shuffle` is modelled as oracle-driven selection without
  replacement (Fisher–Yates), consuming one draw per element.
* The option-building `while` loop of `generate_quiz` is given explicit
  fuel; a `none` result means the loop has not finished within the given
  fuel (so `∀ fuel, … = none` expresses that the loop never finishes).
* Python `list.sort` / `sorted` are stable; they are modelled by
  `List.insertionSort`, which is likewise stable.
-/

namespace NLP

/-- Python strings, modelled as lists of characters. -/
abbrev Str := List Char

/-- The whitespace characters recognised by Python `str.strip()` /
`str.split()` (ASCII range). -/
def pyIsSpace (c : Char) : Bool :=
  c = ' ' || c = '\t' || c = '\n' || c = '\r' || c = '\x0b' || c = '\x0c'

/-- The sentence-terminator class `[.!?]` of `re.split(r'[.!?]+', text)`. -/
def isTermChar (c : Char) : Bool :=
  c = '.' || c = '!' || c = '?'

/-- The characters stripped from word ends in `generate_quiz`
(the Python literal is a quote-delimited list of punctuation characters;
`Char.ofNat 39` is the apostrophe). -/
def isWordPunct (c : Char) : Bool :=
  c = '.' || c = ',' || c = '!' || c = '?' || c = ';' || c = ':' ||
  c = '(' || c = ')' || c = '[' || c = ']' || c = '"' || c = Char.ofNat 39

/-- Python `s.strip(chars)`: remove the leading and the trailing run of
characters satisfying `p`. -/
def stripBy (p : Char → Bool) (s : Str) : Str :=
  List.rdropWhile p (s.dropWhile p)

/-- Python `s.strip()` (whitespace strip). -/
def pyStrip (s : Str) : Str := stripBy pyIsSpace s

/-- Python `w.strip('.,!?;:()[]"\x27')` used on words in `generate_quiz`. -/
def stripWordPunct (s : Str) : Str := stripBy isWordPunct s

/-- Python `s.lower()` (ASCII). -/
def lowerStr (s : Str) : Str := s.map Char.toLower

/-- Worker for `re.split(r'[.!?]+', text)`: `lastTerm` records whether the
previous character belonged to the current terminator run (runs collapse
into a single split point), `cur` is the reversed current fragment. -/
def splitTermGo (lastTerm : Bool) (cur : Str) : Str → List Str
  | [] => [cur.reverse]
  | c :: cs =>
    if isTermChar c then
      if lastTerm then splitTermGo true cur cs
      else cur.reverse :: splitTermGo true [] cs
    else splitTermGo false (c :: cur) cs

/-- Python `re.split` on the terminator class, collapsing runs. -/
def splitTerms (text : Str) : List Str := splitTermGo false [] text

/-- Worker for Python `s.split()` (whitespace split, no empty fragments). -/
def splitWsGo (cur : Str) : Str → List Str
  | [] => if cur.isEmpty then [] else [cur.reverse]
  | c :: cs =>
    if pyIsSpace c then
      if cur.isEmpty then splitWsGo [] cs
      else cur.reverse :: splitWsGo [] cs
    else splitWsGo (c :: cur) cs

/-- Python `s.split()`. -/
def pySplitWs (s : Str) : List Str := splitWsGo [] s

/-- Python `s.endswith(('.', '!', '?'))`. -/
def endsWithTerm (s : Str) : Bool :=
  match s.getLast? with
  | some c => isTermChar c
  | none => false

/-- The `s + "." if not s.endswith(('.', '!', '?')) else s` comprehension
body of `extract_key_points` (branch with few sentences; no strip). -/
def addTerm (s : Str) : Str :=
  if endsWithTerm s then s else s ++ ['.']

/-- The terminal-punctuation normalizer of `extract_key_points`, line 160:
`s.strip() + "." if not s.strip().endswith(('.', '!', '?')) else s.strip()`. -/
def normalizeSentence (s : Str) : Str :=
  let t := pyStrip s
  if endsWithTerm t then t else t ++ ['.']

/-- Python `enumerate`, starting at `n`. -/
def zipIdxFrom : ℕ → List α → List (ℕ × α)
  | _, [] => []
  | n, x :: xs => (n, x) :: zipIdxFrom (n + 1) xs

/-- The sentinel returned by `extract_key_points` when no sentence
survives the length filter. -/
def sentinelNoKeyPoints : Str := "No key points could be extracted.".toList

/-- The fixed importance vocabulary (`important_keywords` in the source). -/
def importantKeywords : List Str :=
  ["important".toList, "key".toList, "theory".toList,
   "principle".toList, "therefore".toList, "result".toList]

/-- Python substring test `needle in hay` (contiguous substring). -/
def containsSub (needle hay : Str) : Bool :=
  (List.range (hay.length + 1)).any (fun i => (hay.drop i).take needle.length == needle)

/-- Sentence scoring of `extract_key_points` (lines 153–155):
base score, `sum(8 for k in important_keywords if k in sentence.lower())`,
and the positional bonus `max(0, 10 - (idx // 3))`. -/
def scoreSentence (sentence : Str) (idx : ℕ) : ℤ :=
  (if 10 ≤ (pySplitWs sentence).length ∧ (pySplitWs sentence).length ≤ 25 then (10 : ℤ) else 5)
  + (importantKeywords.map
      (fun kw => if containsSub kw (lowerStr sentence) then (8 : ℤ) else 0)).sum
  + max 0 (10 - (idx : ℤ) / 3)

/-- The candidate sentence list of `extract_key_points` (line 141):
`[s.strip() for s in re.split(r'[.!?]+', text) if len(s.strip()) > 20]`. -/
def qualSentences (text : Str) : List Str :=
  ((splitTerms text).map pyStrip).filter (fun s => 20 < s.length)

/-- The local rule-based path of `extract_key_points` (lines 140–160). -/
def extractKeyPoints (text : Str) (numPoints : ℕ) : List Str :=
  let sentences := qualSentences text
  if sentences.isEmpty then [sentinelNoKeyPoints]
  else if sentences.length ≤ numPoints then sentences.map addTerm
  else
    let scored := (zipIdxFrom 0 sentences).map (fun p => (scoreSentence p.2 p.1, p.2, p.1))
    let sortedDesc := scored.insertionSort (fun a b => b.1 ≤ a.1)
    let top := (sortedDesc.take numPoints).insertionSort (fun a b => a.2.2 ≤ b.2.2)
    top.map (fun p => normalizeSentence p.2.1)

/-- The `QuizQuestion` record (`backend/app/schemas.py`). -/
structure QuizQuestion where
  question : Str
  options : List Str
  correct_answer : Str
deriving DecidableEq, Repr

/-- The hard-coded placeholder question returned by `generate_quiz` when
an unexpected exception occurs (line 266). -/
def placeholderQuestion : QuizQuestion :=
  ⟨"What is a key concept here?".toList,
   ["A".toList, "B".toList, "C".toList, "D".toList], "A".toList⟩

/-- The stopword set `common_words` of `generate_quiz` (lines 201–203). -/
def commonWords : List Str :=
  (["the", "a", "an", "is", "are", "was", "were", "and", "but",
    "in", "on", "at", "to", "for", "of", "with", "that", "this",
    "these", "those", "from", "by", "as", "lecture", "concept"]).map String.toList

/-- The blank marker inserted in place of the answer word (line 233). -/
def blankMarker : Str := "__________".toList

/-- The instructional stem wrapped around the blanked sentence (line 234). -/
def stemOpen : Str := "Complete the statement: \"".toList

/-- The synthetic filler option `"None of the above"` (line 250). -/
def noneOfTheAbove : Str := "None of the above".toList

/-- The distractor-pool words contributed by one candidate sentence
(lines 206–209): split on whitespace, strip surrounding punctuation, keep
words of length `> 5` whose lowercase form is not a stopword. -/
def validWords (sentence : Str) : List Str :=
  ((pySplitWs sentence).map stripWordPunct).filter
    (fun w => 5 < w.length && !(commonWords.contains (lowerStr w)))

/-- The blankable-word candidates of one sentence (lines 220–221):
pairs of word position and punctuation-stripped word. -/
def blankCandidates (words : List Str) : List (ℕ × Str) :=
  ((zipIdxFrom 0 words).map (fun p => (p.1, stripWordPunct p.2))).filter
    (fun q => 5 < q.2.length && !(commonWords.contains (lowerStr q.2)))

/-- The option-building `while` loop of `generate_quiz` (lines 243–251),
with explicit fuel.  State: the oracle counter `k` and the growing
`options` list (initially `[answer]`).  `pool` is `current_distractors`,
which the source never shrinks.  A `none` result means the loop has not
finished within `fuel` iterations; the filler branch (`pool` empty)
appends the two synthetic options and breaks immediately. -/
def buildOptionsGo (g : ℕ → ℕ) (pool : List Str) (answer : Str) :
    ℕ → ℕ → List Str → Option (List Str × ℕ)
  | 0, _, _ => none
  | fuel + 1, k, options =>
    if options.length < 4 then
      if pool.isEmpty then
        some (options ++ ["Not ".toList ++ answer, noneOfTheAbove], k)
      else
        let d := pool.getD (g k % pool.length) []
        if options.contains d then buildOptionsGo g pool answer fuel (k + 1) options
        else buildOptionsGo g pool answer fuel (k + 1) (options ++ [d])
    else some (options, k)

/-- Worker for the model of `random.shuffle`: structural recursion on a
step counter `f` that the caller sets to the list length (each step
removes exactly one element, so the counter never runs out). -/
def shuffleGoF (g : ℕ → ℕ) : ℕ → ℕ → List Str → List Str × ℕ
  | 0, k, _ => ([], k)
  | f + 1, k, l =>
    match l with
    | [] => ([], k)
    | x :: xs =>
      let i := g k % (x :: xs).length
      let rest := shuffleGoF g f (k + 1) ((x :: xs).eraseIdx i)
      ((x :: xs).getD i [] :: rest.1, rest.2)

/-- Model of `random.shuffle`: oracle-driven selection without
replacement: each step draws an index from the stream, moves that element
to the front of the remainder, and recurses.  Returns the shuffled list
and the advanced oracle counter. -/
def shuffleGo (g : ℕ → ℕ) (k : ℕ) (l : List Str) : List Str × ℕ :=
  shuffleGoF g l.length k l

/-- The per-sentence loop of `generate_quiz` (lines 213–261).  State:
the remaining candidate sentences, the oracle counter `k`, the questions
built so far `qs`, and the set `used` of lowercased answers already
consumed.  `allDistr` is `all_potential_distractors`; `n` is
`num_questions`. -/
def quizLoop (fuel : ℕ) (g : ℕ → ℕ) (allDistr : List Str) (n : ℕ) :
    List Str → ℕ → List QuizQuestion → List Str → Option (List QuizQuestion)
  | [], _, qs, _ => some qs
  | sentence :: rest, k, qs, used =>
    if n ≤ qs.length then some qs
    else
      let words := pySplitWs sentence
      if words.length < 8 then quizLoop fuel g allDistr n rest k qs used
      else
        let candidates := blankCandidates words
        if candidates.isEmpty then quizLoop fuel g allDistr n rest k qs used
        else
          let chosen := candidates.getD (g k % candidates.length) (0, [])
          let answer := chosen.2
          if used.contains (lowerStr answer) then
            quizLoop fuel g allDistr n rest (k + 1) qs used
          else
            let qWords := words.set chosen.1 blankMarker
            let questionText := stemOpen ++ List.intercalate [' '] qWords ++ ['"']
            let pool := allDistr.filter (fun d => !(lowerStr d == lowerStr answer))
            match buildOptionsGo g pool answer fuel (k + 1) [answer] with
            | none => none
            | some (opts, k2) =>
              let sh := shuffleGo g k2 opts
              quizLoop fuel g allDistr n rest sh.2
                (qs ++ [⟨questionText, sh.1, answer⟩]) (lowerStr answer :: used)

/-- The local rule-based path of `generate_quiz` (lines 193–262):
oversample `num_questions * 3` candidate sentences via
`extract_key_points`, build the global distractor pool, then run the
per-sentence loop. -/
def generateQuiz (fuel : ℕ) (g : ℕ → ℕ) (text : Str) (numQuestions : ℕ) :
    Option (List QuizQuestion) :=
  let candidateSentences := extractKeyPoints text (numQuestions * 3)
  let allDistr := (candidateSentences.map validWords).flatten
  quizLoop fuel g allDistr numQuestions candidateSentences 0 [] []

/-! ### Stripping and normalization lemmas -/

theorem rdrop_drop_head?_not (p : Char → Bool) (u : Str) (c : Char)
    (h : (List.rdropWhile p (u.dropWhile p)).head? = some c) : p c = false := by
  obtain ⟨t, ht⟩ := List.rdropWhile_prefix p (u.dropWhile p)
  cases hv : List.rdropWhile p (u.dropWhile p) with
  | nil => rw [hv] at h; cases h
  | cons a as =>
    rw [hv] at h ht
    have hac : a = c := by simpa using h
    subst hac
    have h2 := List.head?_dropWhile_not p u
    rw [← ht] at h2
    simpa using h2

theorem stripBy_head?_not (p : Char → Bool) (s : Str) (c : Char)
    (h : (stripBy p s).head? = some c) : p c = false :=
  rdrop_drop_head?_not p s c h

theorem dropWhile_stripBy (p : Char → Bool) (s : Str) :
    (stripBy p s).dropWhile p = stripBy p s := by
  cases hv : stripBy p s with
  | nil => simp
  | cons a as =>
    have ha : p a = false := stripBy_head?_not p s a (by rw [hv]; rfl)
    simp [List.dropWhile_cons, ha]

theorem stripBy_idem (p : Char → Bool) (s : Str) :
    stripBy p (stripBy p s) = stripBy p s := by
  show List.rdropWhile p ((stripBy p s).dropWhile p) = stripBy p s
  rw [dropWhile_stripBy]
  exact List.rdropWhile_idempotent p (s.dropWhile p)

theorem pyStrip_append_dot (s : Str) :
    pyStrip (pyStrip s ++ ['.']) = pyStrip s ++ ['.'] := by
  have stepA : (pyStrip s ++ ['.']).dropWhile pyIsSpace = pyStrip s ++ ['.'] := by
    cases hv : pyStrip s with
    | nil => decide
    | cons a as =>
      have ha : pyIsSpace a = false := stripBy_head?_not pyIsSpace s a (by show (pyStrip s).head? = some a; rw [hv]; rfl)
      simp [List.dropWhile_cons, ha]
  show List.rdropWhile pyIsSpace ((pyStrip s ++ ['.']).dropWhile pyIsSpace) = _
  rw [stepA]
  exact List.rdropWhile_concat_neg _ _ _ (by decide)

/-- C10: the terminal-punctuation normalizer (trim whitespace, then append
a period unless the string already ends in a sentence terminator) is
idempotent: applying it twice yields the same result as applying it once. -/
theorem c10_normalizer_idempotent (s : Str) :
    normalizeSentence (normalizeSentence s) = normalizeSentence s := by
  simp only [normalizeSentence]
  by_cases h : endsWithTerm (pyStrip s)
  · rw [if_pos h, show pyStrip (pyStrip s) = pyStrip s from stripBy_idem _ _, if_pos h]
  · rw [if_neg h, pyStrip_append_dot]
    have h2 : endsWithTerm (pyStrip s ++ ['.']) = true := by
      unfold endsWithTerm
      rw [List.getLast?_concat]
      decide
    rw [if_pos h2]

/-! ### The degenerate-input behaviour -/

theorem extract_sentinel_aux (text : Str) (k : ℕ) (h : qualSentences text = []) :
    extractKeyPoints text k = [sentinelNoKeyPoints] := by
  simp [extractKeyPoints, h]

/-- C8: an input with no sentence fragment whose trimmed length exceeds
20 characters makes `extract_key_points` return the one-element sentinel
list, not an empty list. -/
theorem c8_extract_sentinel (text : Str) (k : ℕ) (h : qualSentences text = []) :
    extractKeyPoints text k = [sentinelNoKeyPoints] :=
  extract_sentinel_aux text k h

theorem c8_extract_sentinel_witness :
    qualSentences "Too short. Hi.".toList = [] ∧
    extractKeyPoints "Too short. Hi.".toList 7 = [sentinelNoKeyPoints] :=
  ⟨by decide, c8_extract_sentinel _ 7 (by decide)⟩

/-- C2 (amended): for empty or too-short input, `extract_key_points`
returns the one-element sentinel list, while `generate_quiz` returns the
empty question list — not a single placeholder question (the hard-coded
placeholder is produced only by the exception handler, which this input
does not trigger). -/
theorem c2_degenerate_input (text : Str) (k n fuel : ℕ) (g : ℕ → ℕ)
    (hq : qualSentences text = []) (hn : 1 ≤ n) :
    extractKeyPoints text k = [sentinelNoKeyPoints] ∧
    generateQuiz fuel g text n = some [] := by
  refine ⟨extract_sentinel_aux text k hq, ?_⟩
  have h8 : (pySplitWs sentinelNoKeyPoints).length < 8 := by decide
  have hn0 : ¬ (n ≤ ([] : List QuizQuestion).length) := by simp; omega
  simp only [generateQuiz, extract_sentinel_aux text (n * 3) hq]
  simp [quizLoop, hn0, h8]

theorem c2_degenerate_input_witness :
    qualSentences ([] : Str) = [] ∧ (1 : ℕ) ≤ 5 ∧
    (extractKeyPoints ([] : Str) 7 = [sentinelNoKeyPoints] ∧
     generateQuiz 100 (fun _ => 0) ([] : Str) 5 = some []) :=
  ⟨by decide, by decide, c2_degenerate_input [] 7 5 100 (fun _ => 0) (by decide) (by decide)⟩

/-- C2 (counterexample to the claim as stated): on the empty input text,
`generate_quiz` returns the empty list — not a list containing the single
hard-coded placeholder question. -/
theorem c2_counterexample :
    generateQuiz 100 (fun _ => 0) ([] : Str) 5 = some [] ∧
    ([] : List QuizQuestion) ≠ [placeholderQuestion] := by
  refine ⟨by decide, by decide⟩

/-! ### Auxiliary facts about words and stripping -/

/-- A string containing no whitespace characters (true of every word
produced by Python `s.split()`). -/
def NoSpaceStr (w : Str) : Prop := ∀ c ∈ w, pyIsSpace c = false

theorem splitWsGo_no_space :
    ∀ (s cur : Str), (∀ c ∈ cur, pyIsSpace c = false) →
      ∀ w ∈ splitWsGo cur s, ∀ c ∈ w, pyIsSpace c = false := by
  intro s
  induction s with
  | nil =>
    intro cur hcur w hw
    by_cases hc : cur.isEmpty
    · simp [splitWsGo, hc] at hw
    · rw [splitWsGo, if_neg hc] at hw
      rcases List.mem_singleton.mp hw with rfl
      intro c hcmem
      exact hcur c (by simpa using hcmem)
  | cons a as ih =>
    intro cur hcur w hw
    rw [splitWsGo] at hw
    by_cases ha : pyIsSpace a
    · rw [if_pos ha] at hw
      by_cases hc : cur.isEmpty
      · rw [if_pos hc] at hw
        exact ih [] (by simp) w hw
      · rw [if_neg hc] at hw
        rcases List.mem_cons.mp hw with rfl | hw2
        · intro c hcmem
          exact hcur c (by simpa using hcmem)
        · exact ih [] (by simp) w hw2
    · rw [if_neg ha] at hw
      refine ih (a :: cur) ?_ w hw
      intro c hcm
      rcases List.mem_cons.mp hcm with rfl | h2
      · simpa using ha
      · exact hcur c h2

theorem pySplitWs_no_space (s : Str) : ∀ w ∈ pySplitWs s, NoSpaceStr w :=
  fun w hw => splitWsGo_no_space s [] (by simp) w hw

theorem stripBy_mem_sub (p : Char → Bool) (s : Str) : ∀ c ∈ stripBy p s, c ∈ s := by
  intro c hc
  have h1 : List.IsSuffix (s.dropWhile p) s := List.dropWhile_suffix p
  have h2 := List.rdropWhile_prefix p (s.dropWhile p)
  exact h1.sublist.subset (h2.sublist.subset hc)

theorem zipIdxFrom_mem_snd : ∀ (n : ℕ) (l : List α) (p : ℕ × α),
    p ∈ zipIdxFrom n l → p.2 ∈ l := by
  intro n l
  induction l generalizing n with
  | nil => intro p hp; simp [zipIdxFrom] at hp
  | cons x xs ih =>
    intro p hp
    rw [zipIdxFrom] at hp
    rcases List.mem_cons.mp hp with rfl | h2
    · simp
    · exact List.mem_cons_of_mem _ (ih (n + 1) p h2)

theorem getD_mem_of_lt (l : List α) (i : ℕ) (d : α) (h : i < l.length) :
    l.getD i d ∈ l := by
  rw [List.getD_eq_getElem l d h]
  exact List.getElem_mem h

theorem blankCandidates_nospace (sentence : Str) :
    ∀ pr ∈ blankCandidates (pySplitWs sentence), NoSpaceStr pr.2 := by
  intro pr hpr
  have h1 : pr ∈ (zipIdxFrom 0 (pySplitWs sentence)).map
      (fun p => (p.1, stripWordPunct p.2)) := List.mem_of_mem_filter hpr
  obtain ⟨q, hq, rfl⟩ := List.mem_map.mp h1
  intro c hc
  have hcw : c ∈ q.2 := stripBy_mem_sub isWordPunct q.2 c hc
  exact pySplitWs_no_space sentence q.2 (zipIdxFrom_mem_snd 0 _ q hq) c hcw

theorem filler_nodup (ans : Str) (h : NoSpaceStr ans) :
    List.Nodup [ans, "Not ".toList ++ ans, noneOfTheAbove] := by
  have hlen : ("Not ".toList).length = 4 := by decide
  have h1 : ans ≠ "Not ".toList ++ ans := by
    intro heq
    have hl := congrArg List.length heq
    rw [List.length_append, hlen] at hl
    omega
  have h2 : ans ≠ noneOfTheAbove := by
    intro heq
    have hsp : (' ' : Char) ∈ ans := by rw [heq]; decide
    have := h ' ' hsp
    simp [pyIsSpace] at this
  have h3 : "Not ".toList ++ ans ≠ noneOfTheAbove := by
    intro heq
    have h4 := congrArg (List.take 4) heq
    rw [List.take_left' hlen] at h4
    exact absurd h4 (by decide)
  refine List.nodup_cons.mpr ⟨?_, List.nodup_cons.mpr ⟨?_, List.nodup_singleton _⟩⟩
  · intro hmem
    rcases List.mem_cons.mp hmem with heq | hmem2
    · exact h1 heq
    · exact h2 (List.mem_singleton.mp hmem2)
  · intro hmem
    exact h3 (List.mem_singleton.mp hmem)

/-! ### Option-building loop lemmas -/

theorem buildOptionsGo_sub (g : ℕ → ℕ) (pool : List Str) (ans : Str) :
    ∀ (fuel k : ℕ) (opts res : List Str) (k2 : ℕ),
      buildOptionsGo g pool ans fuel k opts = some (res, k2) → opts ⊆ res := by
  intro fuel
  induction fuel with
  | zero => intro k opts res k2 h; cases h
  | succ fuel ih =>
    intro k opts res k2 h
    simp only [buildOptionsGo] at h
    split at h
    · split at h
      · injection h with h'
        injection h' with h5 h6
        subst h5
        exact List.subset_append_left _ _
      · split at h
        · exact ih _ _ _ _ h
        · exact fun x hx => ih _ _ _ _ h (List.mem_append_left _ hx)
    · injection h with h'
      injection h' with h5 h6
      subst h5
      exact fun x hx => hx

theorem buildOptionsGo_len4 (g : ℕ → ℕ) (pool : List Str) (ans : Str) (hp : pool ≠ []) :
    ∀ (fuel k : ℕ) (opts res : List Str) (k2 : ℕ), opts.length ≤ 4 →
      buildOptionsGo g pool ans fuel k opts = some (res, k2) → res.length = 4 := by
  intro fuel
  induction fuel with
  | zero => intro k opts res k2 _ h; cases h
  | succ fuel ih =>
    intro k opts res k2 hle h
    simp only [buildOptionsGo] at h
    split at h
    · rename_i h4
      split at h
      · rename_i hp2
        exact absurd (List.isEmpty_iff.mp hp2) hp
      · split at h
        · exact ih _ _ _ _ hle h
        · refine ih _ _ _ _ ?_ h
          rw [List.length_append]
          simp only [List.length_singleton]
          omega
    · rename_i h4
      injection h with h'
      injection h' with h5 h6
      subst h5
      omega

theorem buildOptionsGo_nodup (g : ℕ → ℕ) (pool : List Str) (ans : Str) (hp : pool ≠ []) :
    ∀ (fuel k : ℕ) (opts res : List Str) (k2 : ℕ), opts.Nodup →
      buildOptionsGo g pool ans fuel k opts = some (res, k2) → res.Nodup := by
  intro fuel
  induction fuel with
  | zero => intro k opts res k2 _ h; cases h
  | succ fuel ih =>
    intro k opts res k2 hnd h
    simp only [buildOptionsGo] at h
    split at h
    · split at h
      · rename_i hp2
        exact absurd (List.isEmpty_iff.mp hp2) hp
      · split at h
        · exact ih _ _ _ _ hnd h
        · rename_i hc
          refine ih _ _ _ _ ?_ h
          have hd : pool.getD (g k % pool.length) [] ∉ opts := by
            intro hmem
            exact hc (List.elem_iff.mpr hmem)
          rw [List.nodup_append]
          exact ⟨hnd, List.nodup_singleton _,
            fun a ha hb => hd (List.mem_singleton.mp hb ▸ ha)⟩
    · injection h with h'
      injection h' with h5 h6
      subst h5
      exact hnd

theorem buildOptionsGo_nil_pool (g : ℕ → ℕ) (ans : Str) (fuel k : ℕ) :
    buildOptionsGo g [] ans (fuel + 1) k [ans] =
      some ([ans, "Not ".toList ++ ans, noneOfTheAbove], k) := rfl

/-! ### Shuffle lemmas -/

theorem perm_cons_eraseIdx (l : List Str) (i : ℕ) (h : i < l.length) :
    l.Perm (l[i] :: l.eraseIdx i) :=
  (l.perm_cons_erase (l.getElem_mem h)).trans (List.Perm.cons _ (List.erase_getElem h))

theorem shuffleGoF_perm (g : ℕ → ℕ) :
    ∀ (f k : ℕ) (l : List Str), l.length = f → (shuffleGoF g f k l).1.Perm l := by
  intro f
  induction f with
  | zero =>
    intro k l hlen
    rw [List.length_eq_zero.mp hlen]
    simp [shuffleGoF]
  | succ f ih =>
    intro k l hlen
    cases l with
    | nil => simp [shuffleGoF]
    | cons x xs =>
      have hi : g k % (x :: xs).length < (x :: xs).length := Nat.mod_lt _ (by simp)
      have hrec : ((x :: xs).eraseIdx (g k % (x :: xs).length)).length = f := by
        have := List.length_eraseIdx_add_one hi
        omega
      have hperm := ih (k + 1) ((x :: xs).eraseIdx (g k % (x :: xs).length)) hrec
      simp only [shuffleGoF]
      refine List.Perm.trans (List.Perm.cons _ hperm) ?_
      rw [List.getD_eq_getElem _ _ hi]
      exact (perm_cons_eraseIdx (x :: xs) _ hi).symm

theorem shuffleGo_perm (g : ℕ → ℕ) (k : ℕ) (l : List Str) :
    (shuffleGo g k l).1.Perm l :=
  shuffleGoF_perm g l.length k l rfl

/-! ### The question-shape invariant of the generation loop -/

/-- The shape every question emitted by the local `generate_quiz` loop has:
the answer occurs among the options, the options are pairwise distinct as
exact strings, and there are 4 of them — or exactly 3 on the filler path,
in which case the two synthetic fillers are among them. -/
def GoodOptions (q : QuizQuestion) : Prop :=
  q.correct_answer ∈ q.options ∧ q.options.Nodup ∧
  (q.options.length = 4 ∨
    (q.options.length = 3 ∧ noneOfTheAbove ∈ q.options ∧
      ("Not ".toList ++ q.correct_answer) ∈ q.options))

theorem quizLoop_good (fuel : ℕ) (g : ℕ → ℕ) (allDistr : List Str) (n : ℕ) :
    ∀ (sentences : List Str) (k : ℕ) (qs : List QuizQuestion) (used : List Str)
      (res : List QuizQuestion),
      (∀ q ∈ qs, GoodOptions q) →
      quizLoop fuel g allDistr n sentences k qs used = some res →
      ∀ q ∈ res, GoodOptions q := by
  intro sentences
  induction sentences with
  | nil =>
    intro k qs used res hgood h
    simp only [quizLoop] at h
    injection h with h'
    subst h'
    exact hgood
  | cons sentence rest ih =>
    intro k qs used res hgood h
    simp only [quizLoop] at h
    split at h
    · injection h with h'
      subst h'
      exact hgood
    · split at h
      · exact ih _ _ _ _ hgood h
      · split at h
        · exact ih _ _ _ _ hgood h
        · split at h
          · exact ih _ _ _ _ hgood h
          · rename_i h1 h8 hcand hused
            split at h
            · simp at h
            · rename_i opts k2 hb
              refine ih _ _ _ _ ?_ h
              intro q hq
              rcases List.mem_append.mp hq with hq1 | hq2
              · exact hgood q hq1
              · rcases List.mem_singleton.mp hq2 with rfl
                -- the freshly built question
                have hlen0 : 0 < (blankCandidates (pySplitWs sentence)).length := by
                  rcases hc2 : blankCandidates (pySplitWs sentence) with _ | ⟨a, b⟩
                  · rw [hc2] at hcand
                    simp at hcand
                  · simp
                have hans : NoSpaceStr
                    ((blankCandidates (pySplitWs sentence)).getD
                      (g k % (blankCandidates (pySplitWs sentence)).length) (0, [])).2 := by
                  apply blankCandidates_nospace sentence
                  exact getD_mem_of_lt _ _ _ (Nat.mod_lt _ hlen0)
                have hperm := shuffleGo_perm g k2 opts
                by_cases hpool :
                    allDistr.filter (fun d => !(lowerStr d ==
                      lowerStr ((blankCandidates (pySplitWs sentence)).getD
                        (g k % (blankCandidates (pySplitWs sentence)).length) (0, [])).2)) = []
                · -- filler path: the pool is empty
                  rw [hpool] at hb
                  cases fuel with
                  | zero => simp [buildOptionsGo] at hb
                  | succ fuel =>
                    rw [buildOptionsGo_nil_pool] at hb
                    injection hb with hb'
                    injection hb' with hb5 hb6
                    subst hb5
                    refine ⟨?_, ?_, Or.inr ⟨?_, ?_, ?_⟩⟩
                    · exact hperm.mem_iff.mpr (by simp)
                    · exact (hperm.nodup_iff).mpr (filler_nodup _ hans)
                    · rw [hperm.length_eq]
                      rfl
                    · exact hperm.mem_iff.mpr (by simp [noneOfTheAbove])
                    · exact hperm.mem_iff.mpr (by simp)
                · -- regular path: the pool is nonempty
                  refine ⟨?_, ?_, Or.inl ?_⟩
                  · exact hperm.mem_iff.mpr
                      (buildOptionsGo_sub _ _ _ _ _ _ _ _ hb (by simp))
                  · exact (hperm.nodup_iff).mpr
                      (buildOptionsGo_nodup _ _ _ hpool _ _ _ _ _ (List.nodup_singleton _) hb)
                  · rw [hperm.length_eq]
                    exact buildOptionsGo_len4 _ _ _ hpool _ _ _ _ _ (by simp) hb

theorem quizLoop_answers (fuel : ℕ) (g : ℕ → ℕ) (allDistr : List Str) (n : ℕ) :
    ∀ (sentences : List Str) (k : ℕ) (qs : List QuizQuestion) (used : List Str)
      (res : List QuizQuestion),
      (qs.map (fun q => lowerStr q.correct_answer)).Nodup →
      (∀ q ∈ qs, lowerStr q.correct_answer ∈ used) →
      quizLoop fuel g allDistr n sentences k qs used = some res →
      (res.map (fun q => lowerStr q.correct_answer)).Nodup := by
  intro sentences
  induction sentences with
  | nil =>
    intro k qs used res hnd hmem h
    simp only [quizLoop] at h
    injection h with h'
    subst h'
    exact hnd
  | cons sentence rest ih =>
    intro k qs used res hnd hmem h
    simp only [quizLoop] at h
    split at h
    · injection h with h'
      subst h'
      exact hnd
    · split at h
      · exact ih _ _ _ _ hnd hmem h
      · split at h
        · exact ih _ _ _ _ hnd hmem h
        · split at h
          · exact ih _ _ _ _ hnd hmem h
          · rename_i h1 h8 hcand hused
            split at h
            · simp at h
            · rename_i opts k2 hb
              refine ih _ _ _ _ ?_ ?_ h
              · rw [List.map_append, List.nodup_append]
                refine ⟨hnd, by simp, ?_⟩
                intro a ha hmem2
                simp only [List.map_cons, List.map_nil, List.mem_singleton] at hmem2
                obtain ⟨q, hq, hqe⟩ := List.mem_map.mp ha
                apply hused
                apply List.elem_iff.mpr
                rw [← hmem2, ← hqe]
                exact hmem q hq
              · intro q hq
                rcases List.mem_append.mp hq with hq1 | hq2
                · exact List.mem_cons_of_mem _ (hmem q hq1)
                · rcases List.mem_singleton.mp hq2 with rfl
                  exact List.mem_cons_self _ _

/-! ### Claim theorems about the quiz shape -/

/-- Concrete input whose only candidate sentence has a single distinct
blankable word, so that the answer-excluded distractor pool is empty. -/
def c1text : Str := "powerhouse is the cell and the cell powerhouse now".toList

/-- The question produced on `c1text` with the all-zero oracle. -/
def c1q : QuizQuestion :=
  ⟨"Complete the statement: \"__________ is the cell and the cell powerhouse now.\"".toList,
   ["powerhouse".toList, "Not powerhouse".toList, "None of the above".toList],
   "powerhouse".toList⟩

/-- C1 (counterexample to the claim as stated): on `c1text` the produced
question has 3 options, not 4 — the filler branch appends the two
synthetic options to the lone answer and stops. -/
theorem c1_counterexample :
    (generateQuiz 100 (fun _ => 0) c1text 1).map (fun qs => qs.map (fun q => q.options.length))
      = some [3] := by decide

/-- C1 (amended): every question emitted by the local `generate_quiz` has
an options list of length 4, except when the answer-excluded distractor
pool is empty: then the synthetic fillers are substituted and the list
has exactly 3 options (the answer, `"Not " ++ answer`, and
`"None of the above"`). -/
theorem c1_options_count (fuel n : ℕ) (g : ℕ → ℕ) (text : Str) (qs : List QuizQuestion)
    (h : generateQuiz fuel g text n = some qs) :
    ∀ q ∈ qs, q.options.length = 4 ∨
      (q.options.length = 3 ∧ noneOfTheAbove ∈ q.options ∧
        ("Not ".toList ++ q.correct_answer) ∈ q.options) := by
  intro q hq
  exact (quizLoop_good fuel g ((extractKeyPoints text (n * 3)).map validWords).flatten n
    (extractKeyPoints text (n * 3)) 0 [] [] qs (by simp) h q hq).2.2

theorem c1_options_count_witness :
    generateQuiz 100 (fun _ => 0) c1text 1 = some [c1q] ∧
    (c1q.options.length = 4 ∨
      (c1q.options.length = 3 ∧ noneOfTheAbove ∈ c1q.options ∧
        ("Not ".toList ++ c1q.correct_answer) ∈ c1q.options)) :=
  ⟨by decide, c1_options_count 100 1 (fun _ => 0) c1text [c1q] (by decide) c1q (by simp)⟩

/-- Concrete input whose distractor pool holds both `"Energy"` and
`"energy"`, which differ only by case. -/
def qtext4 : Str := "Planets contain Energy because energy drives motion systems forever".toList

/-- Oracle steering the run on `qtext4`: answer `"Planets"`, then the
distractor draws `"Energy"`, `"energy"`, `"contain"`, then an identity
shuffle. -/
def g4fun : ℕ → ℕ := fun k => if k = 1 then 1 else if k = 2 then 3 else 0

/-- The question produced on `qtext4` under `g4fun`. -/
def q4 : QuizQuestion :=
  ⟨"Complete the statement: \"__________ contain Energy because energy drives motion systems forever.\"".toList,
   ["Planets".toList, "Energy".toList, "energy".toList, "contain".toList],
   "Planets".toList⟩

/-- C3: every question emitted by the local `generate_quiz` carries a
`correct_answer` that is byte-identical to one of its options. -/
theorem c3_correct_answer_mem (fuel n : ℕ) (g : ℕ → ℕ) (text : Str) (qs : List QuizQuestion)
    (h : generateQuiz fuel g text n = some qs) :
    ∀ q ∈ qs, q.correct_answer ∈ q.options := by
  intro q hq
  exact (quizLoop_good fuel g ((extractKeyPoints text (n * 3)).map validWords).flatten n
    (extractKeyPoints text (n * 3)) 0 [] [] qs (by simp) h q hq).1

theorem c3_correct_answer_mem_witness :
    generateQuiz 100 g4fun qtext4 1 = some [q4] ∧ q4.correct_answer ∈ q4.options :=
  ⟨by decide, c3_correct_answer_mem 100 1 g4fun qtext4 [q4] (by decide) q4 (by simp)⟩

/-- C4 (counterexample to the claim as stated): on `qtext4` under `g4fun`
the emitted options contain both `"Energy"` and `"energy"`, so the
options are not pairwise distinct under case-insensitive comparison. -/
theorem c4_counterexample :
    generateQuiz 100 g4fun qtext4 1 = some [q4] ∧
    ¬ ((q4.options.map lowerStr).Nodup) := ⟨by decide, by decide⟩

/-- C4 (amended): the options of every emitted question are pairwise
distinct as exact strings (the membership test before appending a
distractor is case-sensitive); distinctness under case-insensitive
comparison does not hold in general. -/
theorem c4_options_exact_nodup (fuel n : ℕ) (g : ℕ → ℕ) (text : Str) (qs : List QuizQuestion)
    (h : generateQuiz fuel g text n = some qs) :
    ∀ q ∈ qs, q.options.Nodup := by
  intro q hq
  exact (quizLoop_good fuel g ((extractKeyPoints text (n * 3)).map validWords).flatten n
    (extractKeyPoints text (n * 3)) 0 [] [] qs (by simp) h q hq).2.1

theorem c4_options_exact_nodup_witness :
    generateQuiz 100 g4fun qtext4 1 = some [q4] ∧ q4.options.Nodup :=
  ⟨by decide, c4_options_exact_nodup 100 1 g4fun qtext4 [q4] (by decide) q4 (by simp)⟩

/-- Two-sentence input on which the identity oracle produces two
questions. -/
def t9 : Str :=
  "Planets contain Energy because energy drives motion systems forever. Galaxies produce radiation while gravity shapes orbital structure everywhere.".toList

/-- The two questions produced on `t9` with the identity oracle. -/
def q9a : QuizQuestion :=
  ⟨"Complete the statement: \"__________ contain Energy because energy drives motion systems forever.\"".toList,
   ["Planets".toList, "energy".toList, "Energy".toList, "because".toList],
   "Planets".toList⟩

def q9b : QuizQuestion :=
  ⟨"Complete the statement: \"__________ produce radiation while gravity shapes orbital structure everywhere.\"".toList,
   ["Galaxies".toList, "radiation".toList, "produce".toList, "gravity".toList],
   "Galaxies".toList⟩

/-- C9: the questions returned by one call of the local `generate_quiz`
have pairwise distinct correct answers under case-insensitive comparison
(the loop skips any sentence whose chosen answer was already used). -/
theorem c9_answers_distinct (fuel n : ℕ) (g : ℕ → ℕ) (text : Str) (qs : List QuizQuestion)
    (h : generateQuiz fuel g text n = some qs) :
    (qs.map (fun q => lowerStr q.correct_answer)).Nodup := by
  exact quizLoop_answers fuel g ((extractKeyPoints text (n * 3)).map validWords).flatten n
    (extractKeyPoints text (n * 3)) 0 [] [] qs (by simp) (by simp) h

theorem c9_answers_distinct_witness :
    generateQuiz 100 (fun k => k) t9 2 = some [q9a, q9b] ∧
    (([q9a, q9b].map (fun q => lowerStr q.correct_answer)).Nodup) :=
  ⟨by decide, c9_answers_distinct 100 2 (fun k => k) t9 [q9a, q9b] (by decide)⟩

/-! ### Non-termination of the option-building loop -/

theorem buildOptionsGo_stuck (g : ℕ → ℕ) (pool : List Str) (ans : Str) (S : Finset Str)
    (hpool : pool ≠ []) (hsubp : ∀ d ∈ pool, d ∈ S) (hcard : S.card ≤ 3) :
    ∀ (fuel k : ℕ) (opts : List Str), opts.Nodup → (∀ x ∈ opts, x ∈ S) →
      buildOptionsGo g pool ans fuel k opts = none := by
  intro fuel
  induction fuel with
  | zero => intro k opts _ _; rfl
  | succ fuel ih =>
    intro k opts hnd hsubo
    have hlt : opts.length < 4 := by
      have h1 : opts.toFinset.card = opts.length := List.toFinset_card_of_nodup hnd
      have h2 : opts.toFinset ⊆ S := fun x hx => hsubo x (List.mem_toFinset.mp hx)
      have h3 := Finset.card_le_card h2
      omega
    have hpe : ¬ (pool.isEmpty = true) := by
      intro hc
      exact hpool (List.isEmpty_iff.mp hc)
    have hdmem : pool.getD (g k % pool.length) [] ∈ pool :=
      getD_mem_of_lt _ _ _ (Nat.mod_lt _ (List.length_pos.mpr hpool))
    simp only [buildOptionsGo]
    rw [if_pos hlt, if_neg hpe]
    by_cases hc : opts.contains (pool.getD (g k % pool.length) []) = true
    · rw [if_pos hc]
      exact ih _ _ hnd hsubo
    · rw [if_neg hc]
      refine ih _ _ ?_ ?_
      · rw [List.nodup_append]
        refine ⟨hnd, List.nodup_singleton _, ?_⟩
        intro a ha hb
        rcases List.mem_singleton.mp hb with rfl
        exact hc (List.elem_iff.mpr ha)
      · intro x hx
        rcases List.mem_append.mp hx with h1 | h2
        · exact hsubo x h1
        · rcases List.mem_singleton.mp h2 with rfl
          exact hsubp _ hdmem

/-- Input on which the option-building loop can never finish: the only
candidate sentence has just three distinct blankable words, so at most
three distinct options exist, the pool stays nonempty, and the loop
condition `len(options) < 4` never becomes false. -/
def c5text : Str := "the powerhouse is the mitochondria of the cell indeed".toList

/-- C5 (refuting the claim as stated): on `c5text` the local
`generate_quiz` fails to terminate for every random stream: no amount of
fuel makes the option-building loop finish, so the fuel-indexed embedding
returns `none` for every fuel. -/
theorem c5_nontermination (fuel : ℕ) (g : ℕ → ℕ) :
    generateQuiz fuel g c5text 1 = none := by
  have hext : extractKeyPoints c5text (1 * 3) =
      ["the powerhouse is the mitochondria of the cell indeed.".toList] := by decide
  have hwlen : (pySplitWs "the powerhouse is the mitochondria of the cell indeed.".toList).length = 9 := by decide
  have hcand : blankCandidates (pySplitWs "the powerhouse is the mitochondria of the cell indeed.".toList) =
      [(1, "powerhouse".toList), (4, "mitochondria".toList), (8, "indeed".toList)] := by decide
  have hflat : (List.map validWords
      ["the powerhouse is the mitochondria of the cell indeed.".toList]).flatten =
      ["powerhouse".toList, "mitochondria".toList, "indeed".toList] := by decide
  have h03 : g 0 % 3 < 3 := Nat.mod_lt _ (by norm_num)
  show quizLoop fuel g (((extractKeyPoints c5text (1 * 3)).map validWords).flatten) 1
      (extractKeyPoints c5text (1 * 3)) 0 [] [] = none
  rw [hext]
  simp only [quizLoop, hwlen, hcand, hflat,
    show ([(1, "powerhouse".toList), (4, "mitochondria".toList),
      (8, "indeed".toList)] : List (ℕ × Str)).length = 3 from rfl]
  rw [if_neg (show ¬ (1 ≤ ([] : List QuizQuestion).length) by simp)]
  rw [if_neg (show ¬ ((9 : ℕ) < 8) by norm_num)]
  rw [if_neg (show ¬ (([(1, "powerhouse".toList), (4, "mitochondria".toList),
      (8, "indeed".toList)] : List (ℕ × Str)).isEmpty = true) by decide)]
  rcases (by omega : g 0 % 3 = 0 ∨ g 0 % 3 = 1 ∨ g 0 % 3 = 2) with hg | hg | hg
  · rw [hg,
      show (([(1, "powerhouse".toList), (4, "mitochondria".toList),
        (8, "indeed".toList)] : List (ℕ × Str)).getD 0 (0, [])) = (1, "powerhouse".toList) from rfl]
    dsimp only
    rw [if_neg (show ¬ (List.contains ([] : List Str) (lowerStr "powerhouse".toList) = true) by decide)]
    rw [show List.filter (fun d => !(lowerStr d == lowerStr "powerhouse".toList))
        ["powerhouse".toList, "mitochondria".toList, "indeed".toList] =
        ["mitochondria".toList, "indeed".toList] from by decide]
    rw [buildOptionsGo_stuck g ["mitochondria".toList, "indeed".toList] "powerhouse".toList
        ({"powerhouse".toList, "mitochondria".toList, "indeed".toList} : Finset Str)
        (by decide) (by decide) (by decide) fuel (0 + 1) ["powerhouse".toList]
        (List.nodup_singleton _) (by decide)]
  · rw [hg,
      show (([(1, "powerhouse".toList), (4, "mitochondria".toList),
        (8, "indeed".toList)] : List (ℕ × Str)).getD 1 (0, [])) = (4, "mitochondria".toList) from rfl]
    dsimp only
    rw [if_neg (show ¬ (List.contains ([] : List Str) (lowerStr "mitochondria".toList) = true) by decide)]
    rw [show List.filter (fun d => !(lowerStr d == lowerStr "mitochondria".toList))
        ["powerhouse".toList, "mitochondria".toList, "indeed".toList] =
        ["powerhouse".toList, "indeed".toList] from by decide]
    rw [buildOptionsGo_stuck g ["powerhouse".toList, "indeed".toList] "mitochondria".toList
        ({"powerhouse".toList, "mitochondria".toList, "indeed".toList} : Finset Str)
        (by decide) (by decide) (by decide) fuel (0 + 1) ["mitochondria".toList]
        (List.nodup_singleton _) (by decide)]
  · rw [hg,
      show (([(1, "powerhouse".toList), (4, "mitochondria".toList),
        (8, "indeed".toList)] : List (ℕ × Str)).getD 2 (0, [])) = (8, "indeed".toList) from rfl]
    dsimp only
    rw [if_neg (show ¬ (List.contains ([] : List Str) (lowerStr "indeed".toList) = true) by decide)]
    rw [show List.filter (fun d => !(lowerStr d == lowerStr "indeed".toList))
        ["powerhouse".toList, "mitochondria".toList, "indeed".toList] =
        ["powerhouse".toList, "mitochondria".toList] from by decide]
    rw [buildOptionsGo_stuck g ["powerhouse".toList, "mitochondria".toList] "indeed".toList
        ({"powerhouse".toList, "mitochondria".toList, "indeed".toList} : Finset Str)
        (by decide) (by decide) (by decide) fuel (0 + 1) ["indeed".toList]
        (List.nodup_singleton _) (by decide)]

/-! ### The scoring formula -/

/-- Number of occurrences of `needle` in `hay`, counted as the number of
starting positions at which `needle` matches. -/
def countOcc (needle hay : Str) : ℕ :=
  ((List.range (hay.length + 1)).filter
    (fun i => (hay.drop i).take needle.length == needle)).length

/-- The score formula as the claim states it (written from the spec, for
comparison): 8 per OCCURRENCE of any vocabulary term found as a
case-insensitive substring. -/
def specScoreOcc (sentence : Str) (idx : ℕ) : ℤ :=
  (if 10 ≤ (pySplitWs sentence).length ∧ (pySplitWs sentence).length ≤ 25 then (10 : ℤ) else 5)
  + 8 * (importantKeywords.map (fun kw => (countOcc kw (lowerStr sentence) : ℤ))).sum
  + max 0 (10 - (idx : ℤ) / 3)

/-- The amended score formula: 8 per DISTINCT vocabulary term occurring
at least once as a case-insensitive substring. -/
def specScoreDistinct (sentence : Str) (idx : ℕ) : ℤ :=
  (if 10 ≤ (pySplitWs sentence).length ∧ (pySplitWs sentence).length ≤ 25 then (10 : ℤ) else 5)
  + 8 * ((importantKeywords.filter (fun kw => containsSub kw (lowerStr sentence))).length : ℤ)
  + max 0 (10 - (idx : ℤ) / 3)

/-- C7 (counterexample to the claim as stated): a sentence containing the
keyword `"important"` twice scores 23 in the code (one bonus of 8 per
keyword present), while the claimed per-occurrence formula yields 31. -/
theorem c7_counterexample :
    scoreSentence "important ideas remain important for this exam".toList 0 = 23 ∧
    specScoreOcc "important ideas remain important for this exam".toList 0 = 31 :=
  ⟨by decide, by decide⟩

theorem sum_ite_eight (p : Str → Bool) (ks : List Str) :
    ((ks.map (fun kw => if p kw then (8 : ℤ) else 0)).sum) = 8 * ((ks.filter p).length : ℤ) := by
  induction ks with
  | nil => simp
  | cons a as ih =>
    by_cases h : p a
    · simp only [List.map_cons, List.sum_cons, if_pos h, List.filter_cons_of_pos h,
        List.length_cons, ih]
      push_cast
      ring
    · simp only [List.map_cons, List.sum_cons, if_neg h, List.filter_cons_of_neg h, ih]
      ring

/-- C7 (amended): in the scoring branch of `extract_key_points`, the
sentence at 0-based index `idx` receives score
`(10 if the word count lies in [10, 25] else 5) + 8 per distinct
vocabulary term occurring as a case-insensitive substring +
max(0, 10 - idx / 3)`. -/
theorem c7_score_formula (sentence : Str) (idx : ℕ) :
    scoreSentence sentence idx = specScoreDistinct sentence idx := by
  simp only [scoreSentence, specScoreDistinct, sum_ite_eight]

/-! ### Top-k selection lemmas -/

theorem zipIdxFrom_length : ∀ (n : ℕ) (l : List α), (zipIdxFrom n l).length = l.length := by
  intro n l
  induction l generalizing n with
  | nil => rfl
  | cons x xs ih => simp [zipIdxFrom, ih]

theorem zipIdxFrom_map_fst :
    ∀ (n : ℕ) (l : List α), (zipIdxFrom n l).map Prod.fst = List.range' n l.length := by
  intro n l
  induction l generalizing n with
  | nil => rfl
  | cons x xs ih =>
    rw [zipIdxFrom, List.map_cons, ih, List.length_cons, List.range'_succ]

theorem zipIdxFrom_mem_getD (d : α) :
    ∀ (n : ℕ) (l : List α) (p : ℕ × α), p ∈ zipIdxFrom n l →
      n ≤ p.1 ∧ p.1 - n < l.length ∧ l.getD (p.1 - n) d = p.2 := by
  intro n l
  induction l generalizing n with
  | nil => intro p hp; simp [zipIdxFrom] at hp
  | cons x xs ih =>
    intro p hp
    rcases List.mem_cons.mp hp with rfl | h2
    · refine ⟨Nat.le_refl _, by simp, by simp⟩
    · obtain ⟨ha, hb, hc⟩ := ih (n + 1) p h2
      refine ⟨by omega, by simp only [List.length_cons]; omega, ?_⟩
      have he : p.1 - n = (p.1 - (n + 1)) + 1 := by omega
      rw [he, List.getD_cons_succ]
      exact hc

theorem range_map_getD (l : List α) (f : α → β) (d : α) :
    (List.range l.length).map (fun i => f (l.getD i d)) = l.map f := by
  induction l with
  | nil => rfl
  | cons x xs ih =>
    simp only [List.length_cons, List.range_succ_eq_map, List.map_cons, List.map_map,
      List.getD_cons_zero, List.cons.injEq, true_and, Function.comp, Nat.succ_eq_add_one,
      List.getD_cons_succ]
    exact ih

theorem qualSentences_strip_fixed (text : Str) :
    ∀ s ∈ qualSentences text, pyStrip s = s := by
  intro s hs
  have h1 : s ∈ (splitTerms text).map pyStrip := List.mem_of_mem_filter hs
  obtain ⟨r, hr, rfl⟩ := List.mem_map.mp h1
  exact stripBy_idem _ _

theorem addTerm_eq_normalize (s : Str) (h : pyStrip s = s) :
    addTerm s = normalizeSentence s := by
  simp only [normalizeSentence, addTerm, h]

theorem select_top_spec (qual : List Str) (k : ℕ) (hlen : k ≤ qual.length) :
    (((((zipIdxFrom 0 qual).map (fun p => (scoreSentence p.2 p.1, p.2, p.1))).insertionSort
        (fun a b => b.1 ≤ a.1)).take k).insertionSort (fun a b => a.2.2 ≤ b.2.2)).length = k ∧
    ∃ idxs : List ℕ, idxs.Pairwise (· < ·) ∧
      (((((zipIdxFrom 0 qual).map (fun p => (scoreSentence p.2 p.1, p.2, p.1))).insertionSort
        (fun a b => b.1 ≤ a.1)).take k).insertionSort (fun a b => a.2.2 ≤ b.2.2)).map
          (fun p => normalizeSentence p.2.1) =
        idxs.map (fun i => normalizeSentence (qual.getD i [])) := by
  classical
  set scored := (zipIdxFrom 0 qual).map (fun p => (scoreSentence p.2 p.1, p.2, p.1)) with hscored
  set sortedDesc := scored.insertionSort (fun a b => b.1 ≤ a.1) with hsd
  set top := (sortedDesc.take k).insertionSort (fun a b => a.2.2 ≤ b.2.2) with htop
  have hsdlen : sortedDesc.length = qual.length := by
    rw [hsd, (List.perm_insertionSort _ scored).length_eq, hscored, List.length_map,
      zipIdxFrom_length]
  have htoplen : top.length = k := by
    rw [htop, (List.perm_insertionSort _ _).length_eq, List.length_take, hsdlen]
    omega
  have hmem_scored : ∀ p ∈ top, p ∈ scored := by
    intro p hp
    rw [htop] at hp
    have h1 : p ∈ sortedDesc.take k := ((List.perm_insertionSort _ _).mem_iff).mp hp
    have h2 : p ∈ sortedDesc := List.take_subset _ _ h1
    rw [hsd] at h2
    exact ((List.perm_insertionSort _ _).mem_iff).mp h2
  have hgetD : ∀ p ∈ top, qual.getD p.2.2 [] = p.2.1 := by
    intro p hp
    obtain ⟨q, hq, rfl⟩ := List.mem_map.mp (hmem_scored p hp)
    have h3 := (zipIdxFrom_mem_getD ([] : Str) 0 qual q hq).2.2
    simpa using h3
  haveI hT : IsTotal (ℤ × Str × ℕ) (fun a b => a.2.2 ≤ b.2.2) := ⟨fun a b => Nat.le_total _ _⟩
  haveI hTr : IsTrans (ℤ × Str × ℕ) (fun a b => a.2.2 ≤ b.2.2) := ⟨fun a b c => Nat.le_trans⟩
  have hsorted : top.Pairwise (fun a b => a.2.2 ≤ b.2.2) := List.sorted_insertionSort _ _
  have hscored_fst : scored.map (fun p => p.2.2) = List.range' 0 qual.length := by
    rw [hscored, List.map_map]
    have hco : ((fun p : ℤ × Str × ℕ => p.2.2) ∘
        (fun p : ℕ × Str => (scoreSentence p.2 p.1, p.2, p.1))) = Prod.fst := rfl
    rw [hco, zipIdxFrom_map_fst]
  have hidxnd : (top.map (fun p => p.2.2)).Nodup := by
    have hp1 : (top.map (fun p => p.2.2)).Perm ((sortedDesc.take k).map (fun p => p.2.2)) :=
      (List.perm_insertionSort _ _).map _
    have hp2 : List.Sublist ((sortedDesc.take k).map (fun p => p.2.2))
        (sortedDesc.map (fun p => p.2.2)) :=
      (List.take_sublist _ _).map _
    have hp3 : (sortedDesc.map (fun p => p.2.2)).Perm (scored.map (fun p => p.2.2)) := by
      rw [hsd]
      exact (List.perm_insertionSort _ _).map _
    have hnd : (sortedDesc.map (fun p => p.2.2)).Nodup := by
      rw [hp3.nodup_iff, hscored_fst]
      exact List.nodup_range' 0 qual.length
    exact hp1.nodup_iff.mpr (hp2.nodup hnd)
  refine ⟨htoplen, ?_⟩
  refine ⟨top.map (fun p => p.2.2), ?_, ?_⟩
  · have hle : (top.map fun p => p.2.2).Pairwise (· ≤ ·) := List.pairwise_map.mpr hsorted
    have hne : (top.map fun p => p.2.2).Pairwise (· ≠ ·) := hidxnd
    exact (hle.and hne).imp (fun h => lt_of_le_of_ne h.1 h.2)
  · rw [List.map_map]
    apply List.map_congr_left
    intro p hp
    show normalizeSentence p.2.1 = normalizeSentence (qual.getD p.2.2 [])
    rw [hgetD p hp]

/-- C6: with `k ≥ 1` and at least `k` qualifying sentences, the local
`extract_key_points` returns exactly `k` sentences, listed in ascending
order of their original position among the qualifying sentences. -/
theorem c6_topk_order (text : Str) (k : ℕ) (hk : 1 ≤ k)
    (hlen : k ≤ (qualSentences text).length) :
    (extractKeyPoints text k).length = k ∧
    ∃ idxs : List ℕ, idxs.Pairwise (· < ·) ∧
      extractKeyPoints text k =
        idxs.map (fun i => normalizeSentence ((qualSentences text).getD i [])) := by
  have hne : ¬ ((qualSentences text).isEmpty = true) := by
    intro hc
    rw [List.isEmpty_iff.mp hc] at hlen
    simp at hlen
    omega
  by_cases hle : (qualSentences text).length ≤ k
  · have hkeq : (qualSentences text).length = k := le_antisymm hle hlen
    have hext : extractKeyPoints text k = (qualSentences text).map addTerm := by
      simp only [extractKeyPoints]
      rw [if_neg hne, if_pos hle]
    refine ⟨by rw [hext, List.length_map, hkeq],
      List.range (qualSentences text).length, List.pairwise_lt_range _, ?_⟩
    rw [hext, range_map_getD (qualSentences text) normalizeSentence []]
    exact List.map_congr_left
      (fun s hs => addTerm_eq_normalize s (qualSentences_strip_fixed text s hs))
  · push_neg at hle
    have hext : extractKeyPoints text k =
        (((((zipIdxFrom 0 (qualSentences text)).map
            (fun p => (scoreSentence p.2 p.1, p.2, p.1))).insertionSort
            (fun a b => b.1 ≤ a.1)).take k).insertionSort
            (fun a b => a.2.2 ≤ b.2.2)).map (fun p => normalizeSentence p.2.1) := by
      simp only [extractKeyPoints]
      rw [if_neg hne, if_neg (show ¬ ((qualSentences text).length ≤ k) by omega)]
    obtain ⟨hlen2, idxs, hpw, heq⟩ := select_top_spec (qualSentences text) k hlen
    refine ⟨?_, idxs, hpw, ?_⟩
    · rw [hext, List.length_map]
      exact hlen2
    · rw [hext]
      exact heq

/-- Three-sentence input exercising the scoring branch of the ranker. -/
def c6text : Str :=
  "Alpha beta gamma delta epsilon zeta is a decent sentence here. The important theory result is the key principle therefore per se. Closing remarks without much content to say here at all.".toList

theorem c6_topk_order_witness :
    (1 : ℕ) ≤ 2 ∧ 2 ≤ (qualSentences c6text).length ∧
    ((extractKeyPoints c6text 2).length = 2 ∧
      ∃ idxs : List ℕ, idxs.Pairwise (· < ·) ∧
        extractKeyPoints c6text 2 =
          idxs.map (fun i => normalizeSentence ((qualSentences c6text).getD i []))) :=
  ⟨by decide, by decide, c6_topk_order c6text 2 (by decide) (by decide)⟩

end NLP
